import Mathlib

/-!
Verification of keygen-post: the `magic_computation` and `check_arg` examples

A shallow embedding of the C programs `examples/magic.c`, `examples/magic_sym.c`,
`examples/test.c` and `test.c`.

A C `int` is 32 bits wide.  In the two magic programs an `int` is carried as its bit
pattern, a natural number below `2^32`, and every operation is reduced modulo `2^32`;
`toInt32` reads a bit pattern as a two's-complement signed value and `ofInt32` stores a
signed value as a bit pattern.  In the two `check_arg` programs, which only compare,
an `int` is carried as its signed value.
-/

set_option linter.unusedVariables false

/-- Smallest value of a 32-bit `int`. -/
def INT_MIN : Int := -(2 ^ 31)

/-- Largest value of a 32-bit `int`. -/
def INT_MAX : Int := 2 ^ 31 - 1

/-- Signed (two's-complement) value of a 32-bit pattern. -/
def toInt32 (bits : Nat) : Int :=
  if bits < 2 ^ 31 then (bits : Int) else (bits : Int) - 2 ^ 32

/-- Bit pattern of an integer once reduced to 32 bits. -/
def ofInt32 (v : Int) : Nat := (v % 2 ^ 32).toNat

/-- State of the `for` loop of `magic_computation`: the counter `i` and the variable
`input`. -/
structure LoopState where
  i : Nat
  input : Nat
  deriving DecidableEq, Repr

namespace Magic

/-- One pass of the loop of `magic_computation` in `examples/magic.c`:
`input ^= 1 << i`, then `++i`. -/
def loop_body (s : LoopState) : LoopState :=
  { i := s.i + 1, input := (s.input ^^^ ((1 <<< s.i) % 2 ^ 32)) % 2 ^ 32 }

/-- The loop `for (i = 0; i < 32; ++i) input ^= 1 << i;` from state `s` on: while
`i < 32` holds the body runs, and the loop is left with the first state where it does
not. -/
def for_loop (s : LoopState) : LoopState :=
  if s.i < 32 then for_loop (loop_body s) else s
termination_by 32 - s.i
decreasing_by simp only [loop_body]; omega

/-- Function `magic_computation` of `examples/magic.c`. -/
def magic_computation (input : Nat) : Nat :=
  (for_loop { i := 0, input := input }).input

end Magic

namespace MagicSym

/-- One pass of the loop of `magic_computation` in `examples/magic_sym.c`:
`input ^= 1 << i`, then `++i`. -/
def loop_body (s : LoopState) : LoopState :=
  { i := s.i + 1, input := (s.input ^^^ ((1 <<< s.i) % 2 ^ 32)) % 2 ^ 32 }

/-- The loop `for (i = 0; i < 32; ++i) input ^= 1 << i;` from state `s` on: while
`i < 32` holds the body runs, and the loop is left with the first state where it does
not. -/
def for_loop (s : LoopState) : LoopState :=
  if s.i < 32 then for_loop (loop_body s) else s
termination_by 32 - s.i
decreasing_by simp only [loop_body]; omega

/-- Function `magic_computation` of `examples/magic_sym.c`. -/
def magic_computation (input : Nat) : Nat :=
  (for_loop { i := 0, input := input }).input

end MagicSym

/-- The spec's closed form `~x & 0xFFFFFFFF`, over the integers. -/
def complement32 (x : Nat) : Int := Int.land (~~~(x : Int)) 0xFFFFFFFF

/-- What a finished run of a program leaves behind: the text written to standard
output and the exit status. -/
structure Run where
  stdout : String
  exit : Int
  deriving DecidableEq, Repr

/-- How an execution path under the symbolic engine ends: the function returns a
value, or the path stops at a failed assertion. -/
inductive Outcome where
  | returned (value : Int)
  | assertion_failed
  deriving DecidableEq, Repr

/-- Modelled from the spec: `klee_assert` is declared in `klee/klee.h`, which is not
among the sources. The spec describes it as `assert(condition)`, declaring "that
reaching a state where `condition` is false is a reportable error": the path stops
there with an assertion failure, otherwise execution goes on with `rest`. -/
def klee_assert (condition : Int) (rest : Outcome) : Outcome :=
  if condition = 0 then Outcome.assertion_failed else rest

/-! ## The C library's `atoi` -/

/-- C library `isspace` in the "C" locale: space, and `\t \n \v \f \r` (codes 9 to 13). -/
def isspace (c : Char) : Bool := c.toNat = 32 || (9 ≤ c.toNat && c.toNat ≤ 13)

/-- C library `isdigit`: the characters `0` to `9` (codes 48 to 57). -/
def isdigit (c : Char) : Bool := 48 ≤ c.toNat && c.toNat ≤ 57

/-- Drop the leading white space of a string. -/
def skip_spaces : List Char → List Char
  | [] => []
  | c :: cs => if isspace c then skip_spaces cs else c :: cs

/-- Read the longest run of decimal digits at the head of a string, continuing the
value `acc` read so far; reading stops at the first character that is not a digit. -/
def scan_digits (acc : Nat) : List Char → Nat
  | [] => acc
  | c :: cs => if isdigit c then scan_digits (10 * acc + (c.toNat - 48)) cs else acc

/-- Smallest value of a 64-bit `long`. -/
def LONG_MIN : Int := -(2 ^ 63)

/-- Largest value of a 64-bit `long`. -/
def LONG_MAX : Int := 2 ^ 63 - 1

/-- Out-of-range results of `strtol` are replaced by `LONG_MIN` or `LONG_MAX`. -/
def clamp_long (v : Int) : Int :=
  if v < LONG_MIN then LONG_MIN else if v > LONG_MAX then LONG_MAX else v

/-- Modelled from the spec: `strtol` is the C library's and its code is not among the
sources. This is the library's documented behaviour for base 10 with a 64-bit `long`:
leading white space is skipped, one optional `-` or `+` is taken, then the longest run
of digits is read (value 0 when there is none) and the result is clamped to the range
of `long`. Whatever follows the digits is ignored. -/
def strtol (s : List Char) : Int :=
  match skip_spaces s with
  | [] => 0
  | c :: cs =>
    if c = '-' then clamp_long (-(scan_digits 0 cs : Int))
    else if c = '+' then clamp_long (scan_digits 0 cs : Int)
    else clamp_long (scan_digits 0 (c :: cs) : Int)

/-- Modelled from the spec: `atoi` is the C library's and its code is not among the
sources. The spec has the input "produced by parsing a decimal string from invocation
arguments" into a 32-bit integer; the library defines `atoi(s)` as
`(int) strtol(s, NULL, 10)`, and the conversion to `int` keeps the low 32 bits. The
result is the bit pattern of that `int`. -/
def atoi (s : String) : Nat := ofInt32 (strtol s.toList)

/-! ## `examples/magic.c` and `examples/magic_sym.c`: the drivers -/

/-- Function `main` of `examples/magic.c`. `argv` holds the program name and the
arguments; `argv[1]` is a null pointer when no argument was given, and `atoi` of a
null pointer has no defined behaviour: the result is then `none`. `printf` appends to
standard output. -/
def Magic.main (argc : Int) (argv : List String) : Option Run :=
  match argv[1]? with
  | none => none
  | some arg =>
    let input := atoi arg
    let output := Magic.magic_computation input
    if output = 253 then
      some { stdout := "You win!\n", exit := 0 }
    else
      some { stdout := "You lose\n", exit := 0 }

/-- Function `main` of `examples/magic_sym.c`, on the path where
`klee_make_symbolic` has given `input` the 32-bit pattern `input`. -/
def MagicSym.main (input : Nat) : Outcome :=
  let result := MagicSym.magic_computation input
  if result = 253 then
    klee_assert 0 (Outcome.returned 0)
  else
    Outcome.returned 0

/-! ## `examples/test.c` -/

namespace ExamplesTest

/-- Macro `FALSE`, defined as 0. -/
def FALSE : Int := 0

/-- Macro `TRUE`, defined as 1. -/
def TRUE : Int := 1

/-- A `return` statement reached in `check_arg`: its line in `examples/test.c` and the
value returned. -/
structure Ret where
  line : Nat
  value : Int
  deriving DecidableEq, Repr

/-- Body of `check_arg` in `examples/test.c`, recording which `return` is taken:
line 10 (`a > 10`), line 12 (`a <= 10`) or line 13 (the one marked `not reachable`). -/
def check_arg_ret (a : Int) : Ret :=
  if a > 10 then
    { line := 10, value := FALSE }
  else if a ≤ 10 then
    { line := 12, value := TRUE }
  else
    { line := 13, value := FALSE }

/-- Function `check_arg` of `examples/test.c`. -/
def check_arg (a : Int) : Int := (check_arg_ret a).value

/-- Function `main` of `examples/test.c`, on the path where `klee_make_symbolic` has
given `input` the value `input`. -/
def main (input : Int) : Int := check_arg input

end ExamplesTest

/-! ## `test.c` -/

namespace Test

/-- Function `check_arg` of `test.c`. -/
def check_arg (a : Int) : Outcome :=
  if a > 10 then
    Outcome.returned 0
  else if a < 10 then
    Outcome.returned 1
  else
    klee_assert 0 (Outcome.returned 0)

/-- Function `main` of `test.c`, on the path where `klee_make_symbolic` has given
`input` the value `input`. -/
def main (input : Int) : Outcome := check_arg input

end Test

/-! ## Base-10 integer strings, as the spec speaks of them -/

/-- A non-empty string of decimal digits. -/
def is_digits (ds : List Char) : Bool := !ds.isEmpty && ds.all isdigit

/-- Value of a string of decimal digits, most significant first. -/
def digits_value (ds : List Char) : Nat :=
  ds.foldl (fun acc c => 10 * acc + (c.toNat - 48)) 0

/-- The spec's "base-10 integer string": an optional sign followed by one or more
decimal digits and nothing else. Gives the integer written, `none` for any other
string. -/
def decimal_value (s : String) : Option Int :=
  match s.toList with
  | [] => none
  | c :: cs =>
    if c = '-' then
      if is_digits cs then some (-(digits_value cs : Int)) else none
    else if c = '+' then
      if is_digits cs then some (digits_value cs : Int) else none
    else
      if is_digits (c :: cs) then some (digits_value (c :: cs) : Int) else none

/-! ## The loop of `magic_computation`, pass by pass -/

/-- The loop of `magic_computation` in `examples/magic.c` stopped after `k` passes: as
long as passes remain and `i < 32` holds the body runs; the state then reached is the
result. Entered with `i = 0`, this is the state after the first `k` iterations. -/
def Magic.loop_passes : Nat → LoopState → LoopState
  | 0, s => s
  | k + 1, s => if s.i < 32 then Magic.loop_passes k (Magic.loop_body s) else s

/-- The loop of `magic_computation` in `examples/magic.c` run to its end, together with
the shift counts used: each pass, entered in a state with `i < 32`, computes `1 << i`
and its `i` is recorded, in order. -/
def Magic.for_loop_traced (s : LoopState) : LoopState × List Nat :=
  if s.i < 32 then
    ((Magic.for_loop_traced (Magic.loop_body s)).1,
      s.i :: (Magic.for_loop_traced (Magic.loop_body s)).2)
  else
    (s, [])
termination_by 32 - s.i
decreasing_by all_goals (simp only [Magic.loop_body]; omega)

/-! ## `src/ida_defs.h`: the byte-packing macros -/

/-- Cast `(DWORD_PTR)(v)`: `DWORD_PTR` is `unsigned long`, 64 bits wide. -/
def to_DWORD_PTR (v : Int) : Nat := (v % 2 ^ 64).toNat

/-- Cast `(BYTE)(n)`: `BYTE` is `unsigned char`, 8 bits wide. -/
def to_BYTE (n : Nat) : Nat := n % 2 ^ 8

/-- Cast `(WORD)(n)`: `WORD` is `unsigned short`, 16 bits wide. -/
def to_WORD (n : Nat) : Nat := n % 2 ^ 16

/-- Macro `MAKEWORD(a, b)` of `src/ida_defs.h`:
`((WORD)(((BYTE)(((DWORD_PTR)(a)) & 0xff)) | ((WORD)((BYTE)(((DWORD_PTR)(b)) & 0xff))) << 8))`.
The shift binds tighter than the `|`; both work on operands promoted to the 32-bit
`int`. -/
def MAKEWORD (a b : Int) : Nat :=
  to_WORD (to_BYTE (to_DWORD_PTR a &&& 0xff) |||
    ((to_WORD (to_BYTE (to_DWORD_PTR b &&& 0xff)) <<< 8) % 2 ^ 32))

/-- Macro `LOBYTE(w)` of `src/ida_defs.h`: `((BYTE)(((DWORD_PTR)(w)) & 0xff))`. -/
def LOBYTE (w : Int) : Nat := to_BYTE (to_DWORD_PTR w &&& 0xff)

/-- Macro `HIBYTE(w)` of `src/ida_defs.h`: `((BYTE)((((DWORD_PTR)(w)) >> 8) & 0xff))`. -/
def HIBYTE (w : Int) : Nat := to_BYTE ((to_DWORD_PTR w >>> 8) &&& 0xff)

/-! ## Bit-level lemmas -/

theorem low_mask_xor_bit (k : Nat) : (2 ^ k - 1) ^^^ 2 ^ k = 2 ^ (k + 1) - 1 := by
  apply Nat.eq_of_testBit_eq
  intro j
  rw [Nat.testBit_xor, Nat.testBit_two_pow_sub_one, Nat.testBit_two_pow_sub_one,
    Nat.testBit_two_pow]
  by_cases h1 : j < k
  · have h2 : ¬ k = j := by omega
    have h3 : j < k + 1 := by omega
    simp [h1, h2, h3]
  · by_cases h2 : k = j
    · have h3 : j < k + 1 := by omega
      simp [h1, h2]
    · have h3 : ¬ j < k + 1 := by omega
      simp [h1, h2, h3]

theorem xor_low_mask_lt (x k : Nat) (hx : x < 2 ^ 32) (hk : k ≤ 32) :
    x ^^^ (2 ^ k - 1) < 2 ^ 32 := by
  apply Nat.xor_lt_two_pow hx
  have : 2 ^ k ≤ 2 ^ 32 := Nat.pow_le_pow_right (by decide) hk
  have : 0 < 2 ^ k := Nat.pos_pow_of_pos k (by decide)
  omega

theorem xor_all_ones (x : Nat) (hx : x < 2 ^ 32) :
    x ^^^ (2 ^ 32 - 1) = 2 ^ 32 - 1 - x := by
  apply Nat.eq_of_testBit_eq
  intro j
  rw [Nat.testBit_xor, Nat.testBit_two_pow_sub_one]
  by_cases hj : j < 32
  · have := Nat.testBit_two_pow_sub_succ hx j
    simp only [hj, decide_True, Bool.true_and] at this
    rw [show 2 ^ 32 - 1 - x = 2 ^ 32 - (x + 1) by omega, this]
    simp [hj]
  · have h1 : x < 2 ^ j := lt_of_lt_of_le hx (Nat.pow_le_pow_right (by decide) (by omega))
    have h2 : 2 ^ 32 - 1 - x < 2 ^ j :=
      lt_of_lt_of_le (by omega) (Nat.pow_le_pow_right (by decide) (show 32 ≤ j by omega))
    rw [Nat.testBit_lt_two_pow h1, Nat.testBit_lt_two_pow h2]
    simp [hj]

theorem ldiff_all_ones (x : Nat) (hx : x < 2 ^ 32) :
    Nat.ldiff (2 ^ 32 - 1) x = x ^^^ (2 ^ 32 - 1) := by
  apply Nat.eq_of_testBit_eq
  intro j
  rw [Nat.testBit_ldiff, Nat.testBit_xor, Nat.testBit_two_pow_sub_one]
  by_cases hj : j < 32
  · simp [hj]
  · have h1 : x < 2 ^ j := lt_of_lt_of_le hx (Nat.pow_le_pow_right (by decide) (by omega))
    rw [Nat.testBit_lt_two_pow h1]
    simp [hj]

theorem complement32_eq (x : Nat) (hx : x < 2 ^ 32) :
    complement32 x = ((x ^^^ (2 ^ 32 - 1) : Nat) : Int) := by
  rw [← ldiff_all_ones x hx]
  rfl

/-! ## The loop of `magic_computation` -/

theorem Magic.loop_body_mask (k x : Nat) (hx : x < 2 ^ 32) (hk : k < 32) :
    Magic.loop_body { i := k, input := x ^^^ (2 ^ k - 1) } =
      { i := k + 1, input := x ^^^ (2 ^ (k + 1) - 1) } := by
  have hpow : 2 ^ k < 2 ^ 32 := Nat.pow_lt_pow_right (by decide) hk
  have hlt : x ^^^ (2 ^ (k + 1) - 1) < 2 ^ 32 := xor_low_mask_lt x (k + 1) hx (by omega)
  simp only [Magic.loop_body, Nat.shiftLeft_eq, Nat.one_mul, Nat.mod_eq_of_lt hpow]
  rw [Nat.xor_assoc, low_mask_xor_bit, Nat.mod_eq_of_lt hlt]

theorem Magic.for_loop_from (n k x : Nat) (hx : x < 2 ^ 32) (hk : k + n = 32) :
    Magic.for_loop { i := k, input := x ^^^ (2 ^ k - 1) } =
      { i := 32, input := x ^^^ (2 ^ 32 - 1) } := by
  induction n generalizing k with
  | zero =>
    have hk32 : k = 32 := by omega
    subst hk32
    rw [Magic.for_loop]
    simp
  | succ n ih =>
    rw [Magic.for_loop]
    have hlt : k < 32 := by omega
    simp only [hlt, if_true]
    rw [Magic.loop_body_mask k x hx hlt]
    exact ih (k + 1) (by omega)

theorem Magic.magic_computation_xor (x : Nat) (hx : x < 2 ^ 32) :
    Magic.magic_computation x = x ^^^ (2 ^ 32 - 1) := by
  have h := Magic.for_loop_from 32 0 x hx (by omega)
  simp only [Nat.pow_zero, Nat.sub_self, Nat.xor_zero] at h
  simp only [Magic.magic_computation, h]

theorem MagicSym.loop_body_eq (s : LoopState) : MagicSym.loop_body s = Magic.loop_body s := rfl

theorem MagicSym.for_loop_eq (n : Nat) (s : LoopState) (hn : 32 - s.i = n) :
    MagicSym.for_loop s = Magic.for_loop s := by
  induction n generalizing s with
  | zero =>
    rw [MagicSym.for_loop, Magic.for_loop]
    have : ¬ s.i < 32 := by omega
    simp [this]
  | succ n ih =>
    rw [MagicSym.for_loop, Magic.for_loop]
    have hlt : s.i < 32 := by omega
    simp only [hlt, if_true, MagicSym.loop_body_eq]
    exact ih _ (by simp only [Magic.loop_body]; omega)

theorem MagicSym.magic_computation_eq (x : Nat) :
    MagicSym.magic_computation x = Magic.magic_computation x := by
  simp only [MagicSym.magic_computation, Magic.magic_computation,
    MagicSym.for_loop_eq 32 { i := 0, input := x } rfl]

theorem Magic.magic_computation_sub (x : Nat) (hx : x < 2 ^ 32) :
    Magic.magic_computation x = 2 ^ 32 - 1 - x := by
  rw [Magic.magic_computation_xor x hx, xor_all_ones x hx]

theorem Magic.magic_computation_eq_253 (x : Nat) (hx : x < 2 ^ 32) :
    Magic.magic_computation x = 253 ↔ x = 4294967042 := by
  rw [Magic.magic_computation_sub x hx]
  omega

/-! ## `atoi` on base-10 integer strings -/

theorem scan_digits_eq_foldl (ds : List Char) (acc : Nat) (h : ds.all isdigit = true) :
    scan_digits acc ds = ds.foldl (fun acc c => 10 * acc + (c.toNat - 48)) acc := by
  induction ds generalizing acc with
  | nil => rfl
  | cons c cs ih =>
    simp only [List.all_cons, Bool.and_eq_true] at h
    simp only [scan_digits, h.1, if_true, List.foldl_cons]
    exact ih _ h.2

theorem scan_digits_of_is_digits (ds : List Char) (h : is_digits ds = true) :
    scan_digits 0 ds = digits_value ds := by
  simp only [is_digits, Bool.and_eq_true] at h
  exact scan_digits_eq_foldl ds 0 h.2

theorem skip_spaces_cons (c : Char) (cs : List Char) (h : isspace c = false) :
    skip_spaces (c :: cs) = c :: cs := by
  simp [skip_spaces, h]

theorem isspace_of_isdigit (c : Char) (h : isdigit c = true) : isspace c = false := by
  simp only [isdigit, Bool.and_eq_true, decide_eq_true_eq] at h
  simp only [isspace, Bool.or_eq_false_iff, decide_eq_false_iff_not, Bool.and_eq_false_iff]
  omega

theorem strtol_of_decimal (s : String) (v : Int) (h : decimal_value s = some v) :
    strtol s.toList = clamp_long v := by
  simp only [decimal_value, String.toList] at h
  simp only [String.toList]
  cases hs : s.data with
  | nil => simp [hs] at h
  | cons c cs =>
    simp only [hs] at h
    by_cases hm : c = '-'
    · subst hm
      simp only [if_true] at h
      split at h
      · next hd =>
        have hv : v = -(digits_value cs : Int) := by simpa using h.symm
        rw [hv, strtol, skip_spaces_cons _ _ (by decide)]
        simp [scan_digits_of_is_digits cs hd]
      · simp at h
    · simp only [hm, if_false] at h
      by_cases hp : c = '+'
      · subst hp
        simp only [if_true] at h
        split at h
        · next hd =>
          have hv : v = (digits_value cs : Int) := by simpa using h.symm
          rw [hv, strtol, skip_spaces_cons _ _ (by decide)]
          simp [scan_digits_of_is_digits cs hd]
        · simp at h
      · simp only [hp, if_false] at h
        split at h
        · next hd =>
          have hv : v = (digits_value (c :: cs) : Int) := by simpa using h.symm
          have hc : isdigit c = true := by
            simp only [is_digits, List.all_cons, Bool.and_eq_true] at hd
            exact hd.2.1
          rw [hv, strtol, skip_spaces_cons _ _ (isspace_of_isdigit c hc)]
          simp [hm, hp, scan_digits_of_is_digits (c :: cs) hd]
        · simp at h

theorem clamp_long_of_int (v : Int) (h1 : INT_MIN ≤ v) (h2 : v ≤ INT_MAX) :
    clamp_long v = v := by
  simp only [INT_MIN, INT_MAX] at h1 h2
  simp only [clamp_long, LONG_MIN, LONG_MAX]
  rw [if_neg (by omega), if_neg (by omega)]

theorem atoi_of_decimal (s : String) (v : Int) (h : decimal_value s = some v)
    (h1 : INT_MIN ≤ v) (h2 : v ≤ INT_MAX) : atoi s = ofInt32 v := by
  rw [atoi, strtol_of_decimal s v h, clamp_long_of_int v h1 h2]

theorem ofInt32_lt (v : Int) : ofInt32 v < 2 ^ 32 := by
  have h1 : 0 ≤ v % 2 ^ 32 := Int.emod_nonneg v (by norm_num)
  have h2 : v % 2 ^ 32 < 2 ^ 32 := Int.emod_lt_of_pos v (by norm_num)
  simp only [ofInt32]
  omega

theorem toInt32_ofInt32 (v : Int) (h1 : INT_MIN ≤ v) (h2 : v ≤ INT_MAX) :
    toInt32 (ofInt32 v) = v := by
  simp only [INT_MIN, INT_MAX] at h1 h2
  simp only [toInt32, ofInt32]
  split <;> omega

theorem ofInt32_eq_iff (v : Int) (h1 : INT_MIN ≤ v) (h2 : v ≤ INT_MAX) :
    ofInt32 v = 4294967042 ↔ v = -254 := by
  simp only [INT_MIN, INT_MAX] at h1 h2
  simp only [ofInt32]
  omega

theorem atoi_lt (s : String) : atoi s < 2 ^ 32 := ofInt32_lt _

theorem Magic.main_run (argc : Int) (argv : List String) (s : String)
    (h : argv[1]? = some s) :
    Magic.main argc argv =
      some { stdout := if atoi s = 4294967042 then "You win!\n" else "You lose\n",
             exit := 0 } := by
  simp only [Magic.main, h, Magic.magic_computation_eq_253 (atoi s) (atoi_lt s)]
  split <;> rfl

/-! ## The decimal string of an integer -/

theorem digitChar_isdigit (k : Nat) (hk : k < 10) :
    isdigit (Nat.digitChar k) = true ∧ (Nat.digitChar k).toNat - 48 = k := by
  interval_cases k <;> decide

theorem toDigitsCore_all (fuel n : Nat) (ds : List Char) (h : ds.all isdigit = true) :
    (Nat.toDigitsCore 10 fuel n ds).all isdigit = true := by
  induction fuel generalizing n ds with
  | zero => simpa [Nat.toDigitsCore] using h
  | succ fuel ih =>
    have hd := (digitChar_isdigit (n % 10) (Nat.mod_lt _ (by decide))).1
    have hall : (Nat.digitChar (n % 10) :: ds).all isdigit = true := by
      simp only [List.all_cons, hd, Bool.true_and]
      exact h
    simp only [Nat.toDigitsCore]
    split
    · exact hall
    · exact ih _ _ hall

theorem toDigitsCore_ne_nil (fuel n : Nat) (ds : List Char) (h : ds ≠ []) :
    Nat.toDigitsCore 10 fuel n ds ≠ [] := by
  induction fuel generalizing n ds with
  | zero => simpa [Nat.toDigitsCore] using h
  | succ fuel ih =>
    simp only [Nat.toDigitsCore]
    split
    · simp
    · exact ih _ _ (by simp)

theorem toDigitsCore_value (fuel n : Nat) (ds : List Char) (h : n < fuel) :
    (Nat.toDigitsCore 10 fuel n ds).foldl (fun acc c => 10 * acc + (c.toNat - 48)) 0 =
      ds.foldl (fun acc c => 10 * acc + (c.toNat - 48)) n := by
  induction fuel generalizing n ds with
  | zero => omega
  | succ fuel ih =>
    have hd := (digitChar_isdigit (n % 10) (Nat.mod_lt _ (by decide))).2
    simp only [Nat.toDigitsCore]
    split
    · next h0 =>
      have hn : n % 10 = n := by omega
      rw [hn] at hd
      simp only [List.foldl_cons, hn, hd, Nat.mul_zero, Nat.zero_add]
    · next h0 =>
      rw [ih (n / 10) _ (by omega)]
      simp only [List.foldl_cons, hd]
      congr 1
      omega

theorem toDigits_is_digits (n : Nat) : is_digits (Nat.toDigits 10 n) = true := by
  have h1 : (Nat.toDigits 10 n).all isdigit = true :=
    toDigitsCore_all (n + 1) n [] rfl
  have h2 : Nat.toDigits 10 n ≠ [] := by
    simp only [Nat.toDigits, Nat.toDigitsCore]
    split
    · simp
    · exact toDigitsCore_ne_nil _ _ _ (by simp)
  simp only [is_digits, h1, Bool.and_true, Bool.not_eq_true', List.isEmpty_eq_false]
  exact h2

theorem toDigits_value (n : Nat) : digits_value (Nat.toDigits 10 n) = n := by
  simp only [digits_value, Nat.toDigits]
  rw [toDigitsCore_value (n + 1) n [] (by omega)]
  rfl

theorem decimal_value_digits (ds : List Char) (h : is_digits ds = true) :
    decimal_value (String.mk ds) = some (digits_value ds : Int) := by
  cases ds with
  | nil => simp [is_digits] at h
  | cons c cs =>
    have hc : isdigit c = true := by
      simp only [is_digits, List.all_cons, Bool.and_eq_true] at h
      exact h.2.1
    have hm : c ≠ '-' := by
      intro hc'
      subst hc'
      exact absurd hc (by decide)
    have hp : c ≠ '+' := by
      intro hc'
      subst hc'
      exact absurd hc (by decide)
    simp [decimal_value, String.toList, hm, hp, h]

theorem decimal_value_neg_digits (ds : List Char) (h : is_digits ds = true) :
    decimal_value (String.mk ('-' :: ds)) = some (-(digits_value ds : Int)) := by
  simp [decimal_value, String.toList, h]

theorem decimal_value_toString (x : Int) : decimal_value (toString x) = some x := by
  cases x with
  | ofNat m =>
    show decimal_value (String.mk (Nat.toDigits 10 m)) = some (Int.ofNat m)
    rw [decimal_value_digits _ (toDigits_is_digits m), toDigits_value]
    rfl
  | negSucc m =>
    show decimal_value (String.mk ('-' :: Nat.toDigits 10 (m + 1))) = some (Int.negSucc m)
    rw [decimal_value_neg_digits _ (toDigits_is_digits (m + 1)), toDigits_value]
    rfl

/-! ## The drivers -/

theorem MagicSym.main_outcome (x : Nat) (hx : x < 2 ^ 32) :
    MagicSym.main x =
      if x = 4294967042 then Outcome.assertion_failed else Outcome.returned 0 := by
  simp only [MagicSym.main, MagicSym.magic_computation_eq,
    Magic.magic_computation_eq_253 x hx, klee_assert]
  split <;> rfl

theorem MagicSym.main_failed_iff (x : Nat) (hx : x < 2 ^ 32) :
    MagicSym.main x = Outcome.assertion_failed ↔ x = 4294967042 := by
  rw [MagicSym.main_outcome x hx]
  split <;> simp_all

theorem Magic.main_win_iff (argc : Int) (argv : List String) (s : String)
    (h : argv[1]? = some s) :
    (Magic.main argc argv).map Run.stdout = some "You win!\n" ↔ atoi s = 4294967042 := by
  rw [Magic.main_run argc argv s h]
  by_cases ha : atoi s = 4294967042
  · simp [ha]
  · simp only [ha, if_false, Option.map_some', Option.some.injEq, iff_false]
    decide

/-! ## The claims -/

/-- C1: for every 32-bit input `x`, `magic_computation(x)`, the 32 passes of
`input ^= 1 << i` with arithmetic modulo `2^32`, is the bitwise complement of `x`:
it equals `x XOR 0xFFFFFFFF`, which is `~x & 0xFFFFFFFF` and also `0xFFFFFFFF - x`.
This holds for the function of `magic.c` and for the one of `magic_sym.c`. -/
theorem magic_computation_eq_complement (x : Nat) (hx : x < 2 ^ 32) :
    Magic.magic_computation x = x ^^^ 0xFFFFFFFF ∧
    MagicSym.magic_computation x = x ^^^ 0xFFFFFFFF ∧
    (Magic.magic_computation x : Int) = complement32 x ∧
    Magic.magic_computation x = 0xFFFFFFFF - x := by
  refine ⟨Magic.magic_computation_xor x hx, ?_, ?_, Magic.magic_computation_sub x hx⟩
  · rw [MagicSym.magic_computation_eq]
    exact Magic.magic_computation_xor x hx
  · rw [complement32_eq x hx, Magic.magic_computation_xor x hx]

/-- Witness of C1 at the input `0x12345678`. -/
theorem magic_computation_eq_complement_witness :
    (0x12345678 : Nat) < 2 ^ 32 ∧
    (Magic.magic_computation 0x12345678 = 0x12345678 ^^^ 0xFFFFFFFF ∧
     MagicSym.magic_computation 0x12345678 = 0x12345678 ^^^ 0xFFFFFFFF ∧
     (Magic.magic_computation 0x12345678 : Int) = complement32 0x12345678 ∧
     Magic.magic_computation 0x12345678 = 0xFFFFFFFF - 0x12345678) :=
  ⟨by decide, magic_computation_eq_complement 0x12345678 (by decide)⟩

/-- C2: for every 32-bit input `x`, `magic_computation(x) == 253` exactly when
`x == 0xFFFFFF02`, which is 4294967042 unsigned and -254 signed; so `main` of
`magic_sym.c` stops at `klee_assert(0)` for that input alone and returns 0 for every
other input. -/
theorem magic_computation_eq_253_iff (x : Nat) (hx : x < 2 ^ 32) :
    (Magic.magic_computation x = 253 ↔ x = 0xFFFFFF02) ∧
    (MagicSym.magic_computation x = 253 ↔ x = 0xFFFFFF02) ∧
    (MagicSym.main x = Outcome.assertion_failed ↔ x = 0xFFFFFF02) ∧
    (MagicSym.main x = Outcome.returned 0 ↔ x ≠ 0xFFFFFF02) ∧
    (0xFFFFFF02 : Nat) = 4294967042 ∧ toInt32 0xFFFFFF02 = -254 := by
  refine ⟨Magic.magic_computation_eq_253 x hx, ?_, MagicSym.main_failed_iff x hx, ?_,
    rfl, by decide⟩
  · rw [MagicSym.magic_computation_eq]
    exact Magic.magic_computation_eq_253 x hx
  · rw [MagicSym.main_outcome x hx]
    split <;> simp_all

/-- Witness of C2 at the input `0xFFFFFF02`. -/
theorem magic_computation_eq_253_iff_witness :
    (0xFFFFFF02 : Nat) < 2 ^ 32 ∧ Magic.magic_computation 0xFFFFFF02 = 253 ∧
    MagicSym.main 0xFFFFFF02 = Outcome.assertion_failed :=
  ⟨by decide,
   (magic_computation_eq_253_iff 0xFFFFFF02 (by decide)).1.2 rfl,
   (magic_computation_eq_253_iff 0xFFFFFF02 (by decide)).2.2.1.2 rfl⟩

/-- C3: `check_arg` of `examples/test.c` (branches `a > 10` and `a <= 10`) returns 0 or
1 for every `a`; it returns 0 exactly when `a > 10` and 1 exactly when `a <= 10`; and
the last statement, `return FALSE; // not reachable` on line 13, is reached for no
input. This holds for every integer `a`, the 32-bit ones among them. -/
theorem check_arg_le_total (a : Int) :
    (ExamplesTest.check_arg a = 0 ∨ ExamplesTest.check_arg a = 1) ∧
    (ExamplesTest.check_arg a = 0 ↔ a > 10) ∧
    (ExamplesTest.check_arg a = 1 ↔ a ≤ 10) ∧
    (ExamplesTest.check_arg_ret a).line ≠ 13 ∧
    ExamplesTest.main a = ExamplesTest.check_arg a := by
  simp only [ExamplesTest.main, ExamplesTest.check_arg, ExamplesTest.check_arg_ret,
    ExamplesTest.FALSE, ExamplesTest.TRUE]
  by_cases h : a > 10
  · have h2 : ¬ a ≤ 10 := by omega
    simp [h, h2]
  · have h2 : a ≤ 10 := by omega
    simp [h, h2]

/-- C4: `check_arg` of `test.c` (branches `a > 10` and `a < 10`) stops at
`klee_assert(0)` exactly for `a == 10`, so `check_arg(10)` is an assertion failure and
not a return of 0; every `a > 10` returns 0 and every `a < 10` returns 1. `main` hands
its symbolic input to `check_arg` and ends the same way. -/
theorem check_arg_lt_fails_only_at_10 (a : Int) :
    (Test.check_arg a = Outcome.assertion_failed ↔ a = 10) ∧
    (Test.check_arg a = Outcome.returned 0 ↔ a > 10) ∧
    (Test.check_arg a = Outcome.returned 1 ↔ a < 10) ∧
    Test.check_arg 10 ≠ Outcome.returned 0 ∧
    Test.main a = Test.check_arg a := by
  simp only [Test.main, Test.check_arg, klee_assert]
  by_cases h : a > 10
  · have h2 : ¬ a < 10 := by omega
    have h3 : a ≠ 10 := by omega
    simp [h, h2, h3]
  · by_cases h2 : a < 10
    · have h3 : a ≠ 10 := by omega
      simp [h, h2, h3]
    · have h3 : a = 10 := by omega
      simp [h3]

/-- C5: `main` of `magic.c` run with the argument `4294967042` prints `You win!`, and
run with the argument `0` prints `You lose`; both runs exit with status 0. The
argument is read by `atoi` as a base-10 integer and reduced to a 32-bit `int`. -/
theorem main_win_and_lose_scenarios :
    Magic.main 2 ["magic", "4294967042"] = some { stdout := "You win!\n", exit := 0 } ∧
    Magic.main 2 ["magic", "0"] = some { stdout := "You lose\n", exit := 0 } ∧
    atoi "4294967042" = 0xFFFFFF02 ∧ atoi "0" = 0 := by
  refine ⟨?_, ?_, by decide, by decide⟩
  · rw [Magic.main_run 2 _ "4294967042" rfl]
    decide
  · rw [Magic.main_run 2 _ "0" rfl]
    decide

/-- C6, as stated, fails on the code: the argument `abc` is not a base-10 integer
string, yet `main` of `magic.c` prints the verdict `You lose` and exits with status 0;
no error is reported. -/
theorem main_non_numeric_exits_zero :
    decimal_value "abc" = none ∧
    Magic.main 2 ["magic", "abc"] = some { stdout := "You lose\n", exit := 0 } := by
  refine ⟨by decide, ?_⟩
  rw [Magic.main_run 2 _ "abc" rfl]
  decide

/-- C6, amended: for every invocation of `main` of `magic.c` whose argument is present
and is not a base-10 integer string, no input-format error is reported. The driver
takes what `atoi` reads from the argument (the optionally signed digits at its head
after white space, 0 when there are none), runs `magic_computation` on it, prints
the verdict for that value and exits with status 0. -/
theorem main_non_decimal_runs (argc : Int) (argv : List String) (s : String)
    (h : argv[1]? = some s) (hs : decimal_value s = none) :
    Magic.main argc argv =
      some { stdout := if Magic.magic_computation (atoi s) = 253 then "You win!\n"
                       else "You lose\n",
             exit := 0 } ∧
    (Magic.magic_computation (atoi s) = 253 ↔ atoi s = 0xFFFFFF02) ∧
    atoi s = ofInt32 (strtol s.toList) := by
  refine ⟨?_, Magic.magic_computation_eq_253 (atoi s) (atoi_lt s), rfl⟩
  simp only [Magic.main, h]
  split <;> rfl

/-- Witness of the amended C6 at the argument `-254xyz`, which `atoi` reads as -254. -/
theorem main_non_decimal_runs_witness :
    decimal_value "-254xyz" = none ∧
    Magic.main 2 ["magic", "-254xyz"] = some { stdout := "You win!\n", exit := 0 } := by
  refine ⟨by decide, ?_⟩
  have h := (main_non_decimal_runs 2 ["magic", "-254xyz"] "-254xyz" rfl (by decide)).1
  have h2 := (main_non_decimal_runs 2 ["magic", "-254xyz"] "-254xyz" rfl (by decide)).2.1
  rw [h, if_pos (h2.2 (by decide))]

/-- C7: the `magic_computation` of `magic.c` and the `magic_computation` of
`magic_sym.c` are the same function: they return equal outputs for every input, the
32-bit ones among them. -/
theorem magic_computation_same_in_both_files (x : Nat) :
    Magic.magic_computation x = MagicSym.magic_computation x :=
  (MagicSym.magic_computation_eq x).symm

/-- C8: for every 32-bit signed input `x`, `main` of `magic_sym.c` stops at
`klee_assert(0)` on `x` exactly when `main` of `magic.c`, given the decimal string of
`x` as its argument, prints `You win!`. This holds for the string `toString x` and for
any other base-10 integer string `s` that writes `x`. -/
theorem drivers_agree (x : Int) (h1 : INT_MIN ≤ x) (h2 : x ≤ INT_MAX) (argc : Int)
    (prog s : String) (hs : decimal_value s = some x) :
    (MagicSym.main (ofInt32 x) = Outcome.assertion_failed ↔
      (Magic.main argc [prog, toString x]).map Run.stdout = some "You win!\n") ∧
    (MagicSym.main (ofInt32 x) = Outcome.assertion_failed ↔
      (Magic.main argc [prog, s]).map Run.stdout = some "You win!\n") := by
  constructor
  · rw [MagicSym.main_failed_iff _ (ofInt32_lt x),
      Magic.main_win_iff argc _ (toString x) rfl,
      atoi_of_decimal _ x (decimal_value_toString x) h1 h2]
  · rw [MagicSym.main_failed_iff _ (ofInt32_lt x), Magic.main_win_iff argc _ s rfl,
      atoi_of_decimal s x hs h1 h2]

/-- Witness of C8 at the input -254, written `-254`. -/
theorem drivers_agree_witness :
    INT_MIN ≤ -254 ∧ -254 ≤ INT_MAX ∧ decimal_value "-254" = some (-254) ∧
    ((MagicSym.main (ofInt32 (-254)) = Outcome.assertion_failed ↔
      (Magic.main 2 ["magic", toString (-254 : Int)]).map Run.stdout = some "You win!\n") ∧
     (MagicSym.main (ofInt32 (-254)) = Outcome.assertion_failed ↔
      (Magic.main 2 ["magic", "-254"]).map Run.stdout = some "You win!\n")) :=
  ⟨by decide, by decide, by decide,
   drivers_agree (-254) (by decide) (by decide) 2 "magic" "-254" (by decide)⟩

/-- C9: for every argument that is a base-10 integer string whose value `v` is in the
32-bit `int` range, `main` of `magic.c` reads `v`, prints exactly one verdict,
`You win!` if `magic_computation(v) == 253` and `You lose` otherwise, and exits with
status 0. -/
theorem main_verdict_of_decimal (argc : Int) (argv : List String) (s : String) (v : Int)
    (h : argv[1]? = some s) (hv : decimal_value s = some v)
    (h1 : INT_MIN ≤ v) (h2 : v ≤ INT_MAX) :
    atoi s = ofInt32 v ∧ toInt32 (atoi s) = v ∧
    Magic.main argc argv =
      some { stdout := if Magic.magic_computation (ofInt32 v) = 253 then "You win!\n"
                       else "You lose\n",
             exit := 0 } := by
  have ha := atoi_of_decimal s v hv h1 h2
  refine ⟨ha, ?_, ?_⟩
  · rw [ha]
    exact toInt32_ofInt32 v h1 h2
  · simp only [Magic.main, h, ha]
    split <;> rfl

/-- Witness of C9 at the argument `-254`. -/
theorem main_verdict_of_decimal_witness :
    decimal_value "-254" = some (-254) ∧ INT_MIN ≤ -254 ∧ -254 ≤ INT_MAX ∧
    atoi "-254" = ofInt32 (-254) ∧ toInt32 (atoi "-254") = -254 :=
  ⟨by decide, by decide, by decide,
   (main_verdict_of_decimal 2 ["magic", "-254"] "-254" (-254) rfl (by decide)
      (by decide) (by decide)).1,
   (main_verdict_of_decimal 2 ["magic", "-254"] "-254" (-254) rfl (by decide)
      (by decide) (by decide)).2.1⟩

/-- C10: `main` of `magic.c` is deterministic: two runs given the same argument string
end with the same verdict and the same exit status, whatever `argc`, the program name
and the further arguments are. -/
theorem main_deterministic (argc argc' : Int) (argv argv' : List String) (s : String)
    (h : argv[1]? = some s) (h' : argv'[1]? = some s) :
    ∃ r : Run, Magic.main argc argv = some r ∧ Magic.main argc' argv' = some r :=
  ⟨_, Magic.main_run argc argv s h, Magic.main_run argc' argv' s h'⟩

/-- Witness of C10: two runs on the argument `7`, under different program names and
with different further arguments. -/
theorem main_deterministic_witness :
    ∃ r : Run, Magic.main 2 ["magic", "7"] = some r ∧
      Magic.main 3 ["./a.out", "7", "x"] = some r :=
  main_deterministic 2 3 ["magic", "7"] ["./a.out", "7", "x"] "7" rfl rfl

/-! ## The loop, pass by pass -/

theorem Magic.loop_passes_mask (k n x : Nat) (hx : x < 2 ^ 32) (hk : n + k ≤ 32) :
    Magic.loop_passes k { i := n, input := x ^^^ (2 ^ n - 1) } =
      { i := n + k, input := x ^^^ (2 ^ (n + k) - 1) } := by
  induction k generalizing n with
  | zero => rfl
  | succ k ih =>
    have hlt : n < 32 := by omega
    simp only [Magic.loop_passes, hlt, if_true]
    rw [Magic.loop_body_mask n x hx hlt, ih (n + 1) (by omega)]
    have : n + 1 + k = n + (k + 1) := by omega
    rw [this]

theorem Magic.loop_passes_from_start (k x : Nat) (hx : x < 2 ^ 32) (hk : k ≤ 32) :
    Magic.loop_passes k { i := 0, input := x } = { i := k, input := x ^^^ (2 ^ k - 1) } := by
  have h := Magic.loop_passes_mask k 0 x hx (by omega)
  simpa using h

theorem Magic.loop_passes_eq_for_loop (k : Nat) (s : LoopState) (hk : 32 - s.i ≤ k) :
    Magic.loop_passes k s = Magic.for_loop s := by
  induction k generalizing s with
  | zero =>
    have : ¬ s.i < 32 := by omega
    rw [Magic.for_loop]
    simp [Magic.loop_passes, this]
  | succ k ih =>
    rw [Magic.for_loop]
    simp only [Magic.loop_passes]
    split
    · exact ih _ (by simp only [Magic.loop_body]; omega)
    · rfl

theorem testBit_xor_low_mask (x k j : Nat) :
    (x ^^^ (2 ^ k - 1)).testBit j = (if j < k then !x.testBit j else x.testBit j) := by
  rw [Nat.testBit_xor, Nat.testBit_two_pow_sub_one]
  by_cases h : j < k <;> simp [h]

theorem Magic.for_loop_traced_fst (n : Nat) (s : LoopState) (hn : 32 - s.i = n) :
    (Magic.for_loop_traced s).1 = Magic.for_loop s := by
  induction n generalizing s with
  | zero =>
    have : ¬ s.i < 32 := by omega
    rw [Magic.for_loop_traced, Magic.for_loop]
    simp [this]
  | succ n ih =>
    have hlt : s.i < 32 := by omega
    rw [Magic.for_loop_traced, Magic.for_loop]
    simp only [hlt, if_true]
    exact ih _ (by simp only [Magic.loop_body]; omega)

theorem Magic.for_loop_traced_snd (n : Nat) (s : LoopState) (hn : s.i + n = 32) :
    (Magic.for_loop_traced s).2 = List.range' s.i n := by
  induction n generalizing s with
  | zero =>
    have : ¬ s.i < 32 := by omega
    rw [Magic.for_loop_traced]
    simp [this]
  | succ n ih =>
    have hlt : s.i < 32 := by omega
    rw [Magic.for_loop_traced]
    simp only [hlt, if_true, List.range'_succ]
    rw [ih (Magic.loop_body s) (by simp only [Magic.loop_body]; omega)]
    rfl

theorem Magic.magic_computation_lt (x : Nat) (hx : x < 2 ^ 32) :
    Magic.magic_computation x < 2 ^ 32 := by
  rw [Magic.magic_computation_sub x hx]
  omega

theorem Magic.magic_computation_twice (x : Nat) (hx : x < 2 ^ 32) :
    Magic.magic_computation (Magic.magic_computation x) = x := by
  rw [Magic.magic_computation_sub _ (Magic.magic_computation_lt x hx),
    Magic.magic_computation_sub x hx]
  omega

theorem Magic.magic_computation_signed (v : Int) (h1 : INT_MIN ≤ v) (h2 : v ≤ INT_MAX) :
    toInt32 (Magic.magic_computation (ofInt32 v)) = -v - 1 := by
  rw [Magic.magic_computation_sub _ (ofInt32_lt v)]
  simp only [INT_MIN, INT_MAX] at h1 h2
  simp only [toInt32, ofInt32]
  split <;> omega

/-! ## The byte-packing macros -/

theorem and_255 (n : Nat) : n &&& 255 = n % 256 :=
  Nat.and_pow_two_sub_one_eq_mod n 8

theorem ldiff_255 (n : Nat) : Nat.ldiff 255 n = 255 - n % 256 := by
  apply Nat.eq_of_testBit_eq
  intro j
  have hlt : n % 256 < 2 ^ 8 := Nat.mod_lt _ (by decide)
  have h := Nat.testBit_two_pow_sub_succ hlt j
  rw [show 255 - n % 256 = 2 ^ 8 - (n % 256 + 1) by omega, h, Nat.testBit_ldiff,
    show (255 : Nat) = 2 ^ 8 - 1 by rfl, Nat.testBit_two_pow_sub_one,
    show (256 : Nat) = 2 ^ 8 by rfl, Nat.testBit_mod_two_pow]
  by_cases hj : j < 8 <;> simp [hj]

theorem int_land_255 (a : Int) : Int.land a 0xff = a % 256 := by
  cases a with
  | ofNat n =>
    show ((n &&& 255 : Nat) : Int) = (n : Int) % 256
    rw [and_255]
    omega
  | negSucc n =>
    show ((Nat.ldiff 255 n : Nat) : Int) = Int.negSucc n % 256
    rw [ldiff_255, Int.negSucc_eq]
    omega

theorem MAKEWORD_eq (a b : Int) :
    MAKEWORD a b = (a % 256).toNat + 256 * (b % 256).toNat := by
  have ha : to_DWORD_PTR a % 256 = (a % 256).toNat := by
    simp only [to_DWORD_PTR]
    omega
  have hb : to_DWORD_PTR b % 256 = (b % 256).toNat := by
    simp only [to_DWORD_PTR]
    omega
  have hlo : (a % 256).toNat < 2 ^ 8 := by omega
  have hor := Nat.mul_add_lt_is_or hlo (b % 256).toNat
  simp only [MAKEWORD, to_WORD, to_BYTE, and_255, Nat.shiftLeft_eq, ha, hb]
  rw [Nat.or_comm, show (b % 256).toNat % 2 ^ 8 % 2 ^ 16 * 2 ^ 8 % 2 ^ 32
      = 2 ^ 8 * (b % 256).toNat by omega,
    show (a % 256).toNat % 2 ^ 8 = (a % 256).toNat by omega, ← hor]
  omega

theorem LOBYTE_eq (w : Int) : (LOBYTE w : Int) = w % 256 := by
  simp only [LOBYTE, to_BYTE, to_DWORD_PTR, and_255]
  omega

theorem HIBYTE_eq (w : Int) : (HIBYTE w : Int) = w / 256 % 256 := by
  simp only [HIBYTE, to_BYTE, to_DWORD_PTR, and_255, Nat.shiftRight_eq_div_pow]
  omega

/-! ## The claims on the loop, the signed reading, the variants and the macros -/

/-- C11: loop invariant of `magic_computation`. For every 32-bit input `x` and every
`k` from 0 to 32, after the first `k` passes the counter is `k` and `input` is
`x XOR (2^k - 1)` modulo `2^32`: bits 0 to `k-1` are toggled and bits `k` to 31 are as
in `x`. Pass `k+1` toggles bit `k` and no other, so each bit is toggled exactly once
by the 32 passes, which are the whole loop. -/
theorem magic_loop_invariant (x k : Nat) (hx : x < 2 ^ 32) (hk : k ≤ 32) :
    Magic.loop_passes k { i := 0, input := x } =
      { i := k, input := (x ^^^ (2 ^ k - 1)) % 2 ^ 32 } ∧
    (∀ j, (Magic.loop_passes k { i := 0, input := x }).input.testBit j =
      (if j < k then !x.testBit j else x.testBit j)) ∧
    (k < 32 → ∀ j, (Magic.loop_passes (k + 1) { i := 0, input := x }).input.testBit j =
      xor ((Magic.loop_passes k { i := 0, input := x }).input.testBit j) (decide (j = k))) ∧
    Magic.loop_passes 32 { i := 0, input := x } = Magic.for_loop { i := 0, input := x } ∧
    (∀ j, (Magic.magic_computation x).testBit j =
      (if j < 32 then !x.testBit j else x.testBit j)) := by
  have hpass := Magic.loop_passes_from_start k x hx hk
  refine ⟨?_, ?_, ?_, Magic.loop_passes_eq_for_loop 32 _ (by simp), ?_⟩
  · rw [hpass, Nat.mod_eq_of_lt (xor_low_mask_lt x k hx hk)]
  · intro j
    rw [hpass]
    exact testBit_xor_low_mask x k j
  · intro hlt j
    rw [hpass, Magic.loop_passes_from_start (k + 1) x hx (by omega)]
    simp only [testBit_xor_low_mask]
    by_cases h1 : j < k
    · have h2 : j < k + 1 := by omega
      have h3 : ¬ j = k := by omega
      simp [h1, h2, h3]
    · by_cases h3 : j = k
      · simp [h3]
      · have h2 : ¬ j < k + 1 := by omega
        simp [h1, h2, h3]
  · intro j
    rw [Magic.magic_computation_xor x hx]
    exact testBit_xor_low_mask x 32 j

/-- Witness of C11 at the input 5 after 3 passes. -/
theorem magic_loop_invariant_witness :
    (5 : Nat) < 2 ^ 32 ∧ 3 ≤ 32 ∧
    Magic.loop_passes 3 { i := 0, input := 5 } =
      { i := 3, input := (5 ^^^ (2 ^ 3 - 1)) % 2 ^ 32 } ∧
    (∀ j, (Magic.loop_passes (3 + 1) { i := 0, input := 5 }).input.testBit j =
      xor ((Magic.loop_passes 3 { i := 0, input := 5 }).input.testBit j) (decide (j = 3))) :=
  ⟨by decide, by decide,
   (magic_loop_invariant 5 3 (by decide) (by decide)).1,
   (magic_loop_invariant 5 3 (by decide) (by decide)).2.2.1 (by decide)⟩

/-- C12: `magic_computation` is total on the 32-bit integers. For every 32-bit input
the loop ends after exactly 32 passes: before each of the first 32 passes `i < 32`
holds, after the 32nd `i` is 32 and the loop is left. The shift counts used in
`1 << i` are 0, 1, ..., 31 in this order, each below the width 32; and the value
returned is again below `2^32`. -/
theorem magic_computation_total (x : Nat) (hx : x < 2 ^ 32) :
    (Magic.for_loop_traced { i := 0, input := x }).1 =
      Magic.for_loop { i := 0, input := x } ∧
    (Magic.for_loop_traced { i := 0, input := x }).2 = List.range 32 ∧
    (Magic.for_loop_traced { i := 0, input := x }).2.length = 32 ∧
    (∀ c ∈ (Magic.for_loop_traced { i := 0, input := x }).2, c < 32) ∧
    (∀ k, k < 32 → (Magic.loop_passes k { i := 0, input := x }).i = k) ∧
    Magic.loop_passes 32 { i := 0, input := x } = Magic.for_loop { i := 0, input := x } ∧
    (Magic.for_loop { i := 0, input := x }).i = 32 ∧
    Magic.magic_computation x < 2 ^ 32 := by
  have htr : (Magic.for_loop_traced { i := 0, input := x }).2 = List.range 32 := by
    rw [Magic.for_loop_traced_snd 32 _ (by simp), List.range_eq_range']
  have hend := Magic.loop_passes_eq_for_loop 32 { i := 0, input := x } (by simp)
  refine ⟨Magic.for_loop_traced_fst 32 _ (by simp), htr, ?_, ?_, ?_, hend, ?_,
    Magic.magic_computation_lt x hx⟩
  · rw [htr, List.length_range]
  · intro c hc
    rw [htr] at hc
    exact List.mem_range.1 hc
  · intro k hk
    rw [Magic.loop_passes_from_start k x hx (by omega)]
  · rw [← hend, Magic.loop_passes_from_start 32 x hx (by omega)]

/-- Witness of C12 at the input 0. -/
theorem magic_computation_total_witness :
    (0 : Nat) < 2 ^ 32 ∧
    (Magic.for_loop_traced { i := 0, input := 0 }).2 = List.range 32 ∧
    (Magic.loop_passes 31 { i := 0, input := 0 }).i = 31 ∧
    Magic.magic_computation 0 < 2 ^ 32 :=
  ⟨by decide,
   (magic_computation_total 0 (by decide)).2.1,
   (magic_computation_total 0 (by decide)).2.2.2.2.1 31 (by decide),
   (magic_computation_total 0 (by decide)).2.2.2.2.2.2.2⟩

/-- C13: `magic_computation` is an involution on the 32-bit integers: applied twice it
gives back its input. It is therefore a bijection of the 32-bit integers: it is
injective, and every 32-bit value, 253 among them, has exactly one 32-bit preimage. -/
theorem magic_computation_involution (x : Nat) (hx : x < 2 ^ 32) :
    Magic.magic_computation x < 2 ^ 32 ∧
    Magic.magic_computation (Magic.magic_computation x) = x ∧
    MagicSym.magic_computation (MagicSym.magic_computation x) = x ∧
    (∀ y, y < 2 ^ 32 → Magic.magic_computation y = Magic.magic_computation x → y = x) ∧
    (∃! y, y < 2 ^ 32 ∧ Magic.magic_computation y = x) ∧
    (∃! y, y < 2 ^ 32 ∧ Magic.magic_computation y = 253) := by
  have hinj : ∀ y z, y < 2 ^ 32 → z < 2 ^ 32 →
      Magic.magic_computation y = Magic.magic_computation z → y = z := by
    intro y z hy hz h
    rw [← Magic.magic_computation_twice y hy, h, Magic.magic_computation_twice z hz]
  have hpre : ∀ z, z < 2 ^ 32 → ∃! y, y < 2 ^ 32 ∧ Magic.magic_computation y = z := by
    intro z hz
    refine ⟨Magic.magic_computation z,
      ⟨Magic.magic_computation_lt z hz, Magic.magic_computation_twice z hz⟩, ?_⟩
    intro y hy
    apply hinj y _ hy.1 (Magic.magic_computation_lt z hz)
    rw [hy.2, Magic.magic_computation_twice z hz]
  refine ⟨Magic.magic_computation_lt x hx, Magic.magic_computation_twice x hx, ?_,
    fun y hy h => hinj y x hy hx h, hpre x hx, hpre 253 (by decide)⟩
  rw [MagicSym.magic_computation_eq, MagicSym.magic_computation_eq]
  exact Magic.magic_computation_twice x hx

/-- Witness of C13 at the input 253. -/
theorem magic_computation_involution_witness :
    (253 : Nat) < 2 ^ 32 ∧
    Magic.magic_computation (Magic.magic_computation 253) = 253 ∧
    (∃! y, y < 2 ^ 32 ∧ Magic.magic_computation y = 253) :=
  ⟨by decide,
   (magic_computation_involution 253 (by decide)).2.1,
   (magic_computation_involution 253 (by decide)).2.2.2.2.1⟩

/-- C14: read as a function of signed 32-bit integers, `magic_computation` is
`x ↦ -x - 1` over the integers for every `x` from `-2^31` to `2^31 - 1`, and the result
lies in the same range. The signed and the unsigned reading of the input and of the
output agree modulo `2^32`; the signed input -254 and the unsigned input 4294967042
are one bit pattern, which `atoi` returns for both strings. -/
theorem magic_computation_signed_reading (v : Int) (h1 : INT_MIN ≤ v) (h2 : v ≤ INT_MAX) :
    toInt32 (Magic.magic_computation (ofInt32 v)) = -v - 1 ∧
    INT_MIN ≤ -v - 1 ∧ -v - 1 ≤ INT_MAX ∧
    ((ofInt32 v : Nat) : Int) % 2 ^ 32 = v % 2 ^ 32 ∧
    ((Magic.magic_computation (ofInt32 v) : Nat) : Int) % 2 ^ 32 = (-v - 1) % 2 ^ 32 ∧
    ofInt32 (-254) = 4294967042 ∧ toInt32 4294967042 = -254 ∧
    atoi "-254" = atoi "4294967042" := by
  refine ⟨Magic.magic_computation_signed v h1 h2, ?_, ?_, ?_, ?_, by decide, by decide,
    by decide⟩
  · simp only [INT_MIN, INT_MAX] at h1 h2 ⊢
    omega
  · simp only [INT_MIN, INT_MAX] at h1 h2 ⊢
    omega
  · simp only [ofInt32]
    omega
  · rw [Magic.magic_computation_sub _ (ofInt32_lt v)]
    simp only [ofInt32]
    omega

/-- Witness of C14 at the signed input -254. -/
theorem magic_computation_signed_reading_witness :
    INT_MIN ≤ -254 ∧ -254 ≤ INT_MAX ∧
    toInt32 (Magic.magic_computation (ofInt32 (-254))) = -(-254) - 1 :=
  ⟨by decide, by decide,
   (magic_computation_signed_reading (-254) (by decide) (by decide)).1⟩

/-- C15: the two `check_arg` variants, `examples/test.c` with `a <= 10` and `test.c`
with `a < 10`, agree on every input other than 10: `test.c` returns the value that
`examples/test.c` returns exactly when `a != 10`, and it reaches `klee_assert(0)`
exactly when `a == 10`, where `examples/test.c` returns 1. This holds for every
integer `a`, the 32-bit ones among them. -/
theorem check_arg_variants_agree (a : Int) :
    (Test.check_arg a = Outcome.returned (ExamplesTest.check_arg a) ↔ a ≠ 10) ∧
    (Test.check_arg a = Outcome.assertion_failed ↔ a = 10) ∧
    ExamplesTest.check_arg 10 = 1 ∧
    Test.check_arg 10 = Outcome.assertion_failed := by
  simp only [Test.check_arg, klee_assert, ExamplesTest.check_arg,
    ExamplesTest.check_arg_ret, ExamplesTest.FALSE, ExamplesTest.TRUE]
  by_cases h : a > 10
  · have h2 : ¬ a < 10 := by omega
    have h3 : a ≠ 10 := by omega
    simp [h, h2, h3]
  · by_cases h2 : a < 10
    · have h3 : a ≠ 10 := by omega
      have h4 : a ≤ 10 := by omega
      simp [h, h2, h3, h4]
    · have h3 : a = 10 := by omega
      simp [h3]

/-- C16: byte-packing round trip of the macros of `src/ida_defs.h`. For all integers
`a` and `b`, `LOBYTE(MAKEWORD(a, b))` is `a & 0xff` and `HIBYTE(MAKEWORD(a, b))` is
`b & 0xff`, that is `a` and `b` modulo 256; and `MAKEWORD(a, b)` is in the 16-bit
range 0 to 65535, being `(a & 0xff) + 256 * (b & 0xff)`. -/
theorem makeword_round_trip (a b : Int) :
    ((LOBYTE (MAKEWORD a b) : Nat) : Int) = Int.land a 0xff ∧
    ((HIBYTE (MAKEWORD a b) : Nat) : Int) = Int.land b 0xff ∧
    ((LOBYTE (MAKEWORD a b) : Nat) : Int) = a % 256 ∧
    ((HIBYTE (MAKEWORD a b) : Nat) : Int) = b % 256 ∧
    MAKEWORD a b ≤ 65535 ∧
    ((MAKEWORD a b : Nat) : Int) = a % 256 + 256 * (b % 256) := by
  have hlo : ((LOBYTE (MAKEWORD a b) : Nat) : Int) = a % 256 := by
    rw [LOBYTE_eq, MAKEWORD_eq]
    omega
  have hhi : ((HIBYTE (MAKEWORD a b) : Nat) : Int) = b % 256 := by
    rw [HIBYTE_eq, MAKEWORD_eq]
    omega
  refine ⟨?_, ?_, hlo, hhi, ?_, ?_⟩
  · rw [int_land_255, hlo]
  · rw [int_land_255, hhi]
  · rw [MAKEWORD_eq]
    omega
  · rw [MAKEWORD_eq]
    omega
